/-
Verification of the response-normalization pipeline and related handlers of
a small Flask medical-report-analysis application (src/app.py).

The Python functions `smart_parse_data`, `filter_unwanted_keys`,
`classify_medical` and the `/chat` route handler are shallowly embedded as
executable Lean definitions; Python strings are modelled as `List Char`
(wrapped in `String` at the interfaces), Python dicts as ordered
association lists, JSON values as an inductive `Value` type, and the
external HTTP collaborators as explicit function/Option parameters.
-/
import Mathlib

set_option maxRecDepth 4096

namespace App

/-! ## Python string primitives -/

/-- The characters stripped by Python `str.strip()` and matched by the
regex class `\s` (ASCII range; the inputs handled here are ASCII). -/
def pyWs (c : Char) : Bool :=
  c = ' ' || c = '\t' || c = '\n' || c = '\r' || c = Char.ofNat 11 || c = Char.ofNat 12

/-- The single-quote character `'` (written via its code point). -/
def squote : Char := Char.ofNat 39

/-- The double-quote character. -/
def dquote : Char := Char.ofNat 34

/-- A character matched by the regex class `["\']`. -/
def isQuote (c : Char) : Bool := c = dquote || c = squote

/-- The backtick character (written via its code point). -/
def btick : Char := Char.ofNat 96

/-- The opening curly brace (written via its code point). -/
def lbrace : Char := Char.ofNat 123

/-- The closing curly brace (written via its code point). -/
def rbrace : Char := Char.ofNat 125

/-- Drop trailing characters satisfying `p` (helper for `strip`). -/
def dropEndWhile (p : Char → Bool) (t : List Char) : List Char :=
  (t.reverse.dropWhile p).reverse

/-- Python `str.strip()`: remove leading and trailing whitespace. -/
def pyStrip (t : List Char) : List Char :=
  dropEndWhile pyWs (t.dropWhile pyWs)

/-- Does `t` start with `pat`? -/
def startsWithPat : List Char → List Char → Bool
  | [], _ => true
  | _ :: _, [] => false
  | p :: ps, c :: cs => p = c && startsWithPat ps cs

/-- Is `pat` a contiguous substring of `t` (Python `in` on strings)? -/
def isSubstrOf (pat : List Char) : List Char → Bool
  | [] => startsWithPat pat []
  | c :: cs => startsWithPat pat (c :: cs) || isSubstrOf pat cs

/-- Python `str.replace(pat, rep)`: replace all non-overlapping occurrences
left to right.  Recursion is counted by a step budget that the wrapper sets
to the text length; with a non-empty pattern every step consumes at least
one character, so the budget never runs out (an exhausted budget would
return the remaining text unchanged).  The `pat = []` case never occurs in
this development (the source only replaces the non-empty patterns
triple-backtick-json and triple-backtick) and is mapped to the identity. -/
def pyReplaceFuel (pat rep : List Char) : Nat → List Char → List Char
  | 0, t => t
  | _ + 1, [] => []
  | fuel + 1, c :: cs =>
    if pat.isEmpty then c :: cs
    else if startsWithPat pat (c :: cs) then
      rep ++ pyReplaceFuel pat rep fuel ((c :: cs).drop pat.length)
    else
      c :: pyReplaceFuel pat rep fuel cs

/-- The replace wrapper at the adequate step budget. -/
def pyReplace (pat rep t : List Char) : List Char :=
  pyReplaceFuel pat rep t.length t

/-- Python `str.lower()` (ASCII). -/
def pyLower (t : List Char) : List Char := t.map Char.toLower

/-- Python `str.upper()` (ASCII). -/
def pyUpper (t : List Char) : List Char := t.map Char.toUpper

/-! ## JSON values and records (Python dicts) -/

/-- A Python value as produced by `json.loads` (and by the regex fallback
path of `smart_parse_data`).  Numbers keep their source lexeme: no claim in
this development depends on numeric formatting. -/
inductive Value where
  | str (s : String)
  | num (lexeme : String)
  | bool (b : Bool)
  | null
  | list (items : List Value)
  | obj (fields : List (String × Value))

/-- A Python dict, modelled as an ordered association list.  Python dicts
preserve insertion order and have pairwise-distinct keys. -/
abbrev Record := List (String × Value)

/-- Python dict assignment `d[k] = v`: updates in place when `k` is already
present (keeping its position), otherwise appends. -/
def dictSet (d : Record) (k : String) (v : Value) : Record :=
  if d.any (fun kv => kv.1 = k) then
    d.map (fun kv => if kv.1 = k then (k, v) else kv)
  else
    d ++ [(k, v)]

/-- Python truthiness test `not value` on the values above (empty string,
empty list, empty dict, zero, `False` and `None` are falsy).  A numeric
lexeme is falsy when its mantissa digits are all zero. -/
def pyFalsy : Value → Bool
  | .str s => s = ""
  | .num lx =>
    (lx.toList.filter (fun c => c ≠ '-' && c ≠ '+' && c ≠ '.' && c ≠ '0')).isEmpty
  | .bool b => !b
  | .null => true
  | .list l => l.isEmpty
  | .obj f => f.isEmpty

/-- Python `repr` of a string.  Python prefers single quotes, switching to
double quotes when the string contains a single quote but no double quote;
backslashes, the delimiter, and common control characters are escaped.
(Exotic escapes such as `\xNN` for other control characters are beyond the
inputs of this development.) -/
def reprStr (s : String) : List Char :=
  let cs := s.toList
  let q := if cs.contains squote && !cs.contains dquote then dquote else squote
  q :: (cs.foldr (fun c acc =>
    if c = '\\' then '\\' :: '\\' :: acc
    else if c = q then '\\' :: q :: acc
    else if c = '\n' then '\\' :: 'n' :: acc
    else if c = '\r' then '\\' :: 'r' :: acc
    else if c = '\t' then '\\' :: 't' :: acc
    else c :: acc) []) ++ [q]

mutual

/-- Python `repr` of a value, as used on the elements when a container is
stringified. -/
def pyRepr : Value → List Char
  | .str s => reprStr s
  | .num lx => lx.toList
  | .bool b => if b then "True".toList else "False".toList
  | .null => "None".toList
  | .list l => '[' :: pyReprList l ++ [']']
  | .obj f => lbrace :: pyReprFields f ++ [rbrace]

/-- Comma-joined `repr`s of list elements. -/
def pyReprList : List Value → List Char
  | [] => []
  | [v] => pyRepr v
  | v :: w :: rest => pyRepr v ++ ',' :: ' ' :: pyReprList (w :: rest)

/-- Comma-joined `repr`s of dict entries. -/
def pyReprFields : List (String × Value) → List Char
  | [] => []
  | [(k, v)] => reprStr k ++ ':' :: ' ' :: pyRepr v
  | (k, v) :: e :: rest =>
    reprStr k ++ ':' :: ' ' :: pyRepr v ++ ',' :: ' ' :: pyReprFields (e :: rest)

end

/-- Python `str(value)` for the values reaching the filter's contact-marker
check: a string is itself; containers go through `repr`. -/
def pyStr : Value → List Char
  | .str s => s.toList
  | v => pyRepr v

/-! ## filter_unwanted_keys (src/app.py lines 124-163) -/

/-- The denylist of key substrings, verbatim from the source. -/
def unwanted_patterns : List String :=
  ["contact", "phone", "email", "address", "patient_id", "hospital_id",
   "clinic", "name", "patient_name", "doctor_name", "provider",
   "id_number", "insurance", "account", "mrn", "medical_record",
   "zip", "postal", "street", "city", "state", "country",
   "fax", "mobile", "phone_number", "contact_person",
   "dob", "date_of_birth", "age_in_years", "sex",
   "occupation", "employer", "reference", "next_of_kin"]

/-- `key.lower().replace(' ', '_')`. -/
def normKey (k : String) : List Char :=
  (pyLower k.toList).map (fun c => if c = ' ' then '_' else c)

/-- Does the normalized key contain a denylisted substring? -/
def keyBad (k : String) : Bool :=
  unwanted_patterns.any (fun p => isSubstrOf p.toList (normKey k))

/-- The contact-info markers checked against `str(value).lower()`. -/
def contact_markers : List String := ["@", "tel:", "phone:", "+91", "+1"]

/-- The marker check, applied only to `str` and `list` values. -/
def valueBad : Value → Bool
  | .str s => contact_markers.any (fun m => isSubstrOf m.toList (pyLower (pyStr (.str s))))
  | .list l => contact_markers.any (fun m => isSubstrOf m.toList (pyLower (pyStr (.list l))))
  | _ => false

/-- The keep-condition of the filter loop: the key is not denylisted, the
value is truthy (in particular not an empty string or list), and the value
carries no contact marker. -/
def keepEntry (kv : String × Value) : Bool :=
  !keyBad kv.1 && !pyFalsy kv.2 && !valueBad kv.2

/-- `filter_unwanted_keys`: rebuild the record from the entries passing
`keepEntry`, in order.  The source builds a fresh dict by inserting each
kept entry of a dict (whose keys are pairwise distinct), which is exactly
a filter of the association list. -/
def filter_unwanted_keys (d : Record) : Record :=
  d.filter keepEntry

/-! ## JSON parsing (`json.loads`)

A recursive-descent parser mirroring CPython's strict `json.loads`: JSON
whitespace is space/tab/newline/carriage-return; strings are double-quoted
with the standard escapes and reject raw control characters; numbers follow
the JSON grammar (with `NaN`/`Infinity`/`-Infinity` accepted, as CPython
does); objects keep the last value for a duplicated key; trailing data
after the top-level value is an error.  Recursion is bounded by a fuel
argument that the top-level entry point makes amply large. -/

/-- JSON whitespace. -/
def jsonWs (c : Char) : Bool := c = ' ' || c = '\t' || c = '\n' || c = '\r'

/-- Skip JSON whitespace. -/
def skipWs (t : List Char) : List Char := t.dropWhile jsonWs

/-- Value of a hex digit. -/
def hexVal (c : Char) : Option Nat :=
  if '0' ≤ c ∧ c ≤ '9' then some (c.toNat - 48)
  else if 'a' ≤ c ∧ c ≤ 'f' then some (c.toNat - 87)
  else if 'A' ≤ c ∧ c ≤ 'F' then some (c.toNat - 55)
  else none

/-- Decimal digit test. -/
def isDigit (c : Char) : Bool := '0' ≤ c && c ≤ '9'

/-- Parse the body of a JSON string (opening quote already consumed),
returning the decoded characters and the rest of the input.  Surrogate
`\-u` pairs are combined; lone surrogates are rejected (Lean `Char` cannot
hold them; none of the inputs in this development contain them). -/
def parseJString (fuel : Nat) (t : List Char) : Option (List Char × List Char) :=
  match fuel with
  | 0 => none
  | fuel + 1 =>
    match t with
    | [] => none
    | c :: cs =>
      if c = dquote then some ([], cs)
      else if c = '\\' then
        match cs with
        | [] => none
        | e :: cs2 =>
          let cont (ch : Char) (rest : List Char) : Option (List Char × List Char) :=
            (parseJString fuel rest).map (fun sr => (ch :: sr.1, sr.2))
          if e = dquote then cont dquote cs2
          else if e = '\\' then cont '\\' cs2
          else if e = '/' then cont '/' cs2
          else if e = 'b' then cont (Char.ofNat 8) cs2
          else if e = 'f' then cont (Char.ofNat 12) cs2
          else if e = 'n' then cont '\n' cs2
          else if e = 'r' then cont '\r' cs2
          else if e = 't' then cont '\t' cs2
          else if e = 'u' then
            match cs2 with
            | h1 :: h2 :: h3 :: h4 :: rest =>
              match hexVal h1, hexVal h2, hexVal h3, hexVal h4 with
              | some a, some b, some c3, some d =>
                let n := ((a * 16 + b) * 16 + c3) * 16 + d
                if 0xD800 ≤ n ∧ n ≤ 0xDBFF then
                  match rest with
                  | '\\' :: 'u' :: g1 :: g2 :: g3 :: g4 :: rest2 =>
                    match hexVal g1, hexVal g2, hexVal g3, hexVal g4 with
                    | some a2, some b2, some c4, some d2 =>
                      let m := ((a2 * 16 + b2) * 16 + c4) * 16 + d2
                      if 0xDC00 ≤ m ∧ m ≤ 0xDFFF then
                        cont (Char.ofNat (0x10000 + (n - 0xD800) * 0x400 + (m - 0xDC00))) rest2
                      else none
                    | _, _, _, _ => none
                  | _ => none
                else if 0xDC00 ≤ n ∧ n ≤ 0xDFFF then none
                else cont (Char.ofNat n) rest
              | _, _, _, _ => none
            | _ => none
          else none
      else if c.toNat < 32 then none
      else (parseJString fuel cs).map (fun sr => (c :: sr.1, sr.2))

/-- Parse a JSON number starting at the head of `t`, returning its lexeme
and the rest.  Mirrors CPython's scanner regex: the integer part is `0` or
a nonzero-led digit run, and the fraction/exponent parts are only taken
when complete (so `5.` yields lexeme `5` with `.` left over). -/
def parseNumber (t : List Char) : Option (List Char × List Char) :=
  let (neg, t1) : List Char × List Char :=
    match t with
    | '-' :: r => (['-'], r)
    | _ => ([], t)
  match t1 with
  | [] => none
  | c :: _ =>
    if !isDigit c then none
    else
      let intPart : List Char :=
        match t1 with
        | '0' :: _ => ['0']
        | _ => t1.takeWhile isDigit
      let r1 := t1.drop intPart.length
      let (fracPart, r2) : List Char × List Char :=
        match r1 with
        | '.' :: r =>
          let ds := r.takeWhile isDigit
          if ds.isEmpty then ([], r1) else ('.' :: ds, r.drop ds.length)
        | _ => ([], r1)
      let (expPart, r3) : List Char × List Char :=
        match r2 with
        | e :: r =>
          if e = 'e' || e = 'E' then
            let (sgn, r4) : List Char × List Char :=
              match r with
              | s :: r5 => if s = '+' || s = '-' then ([s], r5) else ([], r)
              | [] => ([], r)
            let ds := r4.takeWhile isDigit
            if ds.isEmpty then ([], r2) else (e :: sgn ++ ds, r4.drop ds.length)
          else ([], r2)
        | [] => ([], r2)
      some (neg ++ intPart ++ fracPart ++ expPart, r3)

mutual

/-- Parse one JSON value at the head of `t`. -/
def parseVal : Nat → List Char → Option (Value × List Char)
  | 0, _ => none
  | fuel + 1, t =>
    match t with
    | [] => none
    | c :: cs =>
      if c = lbrace then parseObjBody fuel (skipWs cs) []
      else if c = '[' then parseArrBody fuel (skipWs cs) []
      else if c = dquote then
        (parseJString (cs.length + 1) cs).map (fun sr => (.str (String.mk sr.1), sr.2))
      else if startsWithPat "true".toList t then some (.bool true, t.drop 4)
      else if startsWithPat "false".toList t then some (.bool false, t.drop 5)
      else if startsWithPat "null".toList t then some (.null, t.drop 4)
      else if startsWithPat "NaN".toList t then some (.num "nan", t.drop 3)
      else if startsWithPat "Infinity".toList t then some (.num "inf", t.drop 8)
      else if startsWithPat "-Infinity".toList t then some (.num "-inf", t.drop 9)
      else (parseNumber t).map (fun lr => (.num (String.mk lr.1), lr.2))

/-- Parse an object body (opening brace and following whitespace already
consumed), accumulating entries with dict-assignment semantics. -/
def parseObjBody : Nat → List Char → Record → Option (Value × List Char)
  | 0, _, _ => none
  | fuel + 1, t, acc =>
    match t with
    | [] => none
    | c :: cs =>
      if c = rbrace ∧ acc.isEmpty then some (.obj [], cs)
      else if c = dquote then
        match parseJString (cs.length + 1) cs with
        | none => none
        | some (key, r1) =>
          match skipWs r1 with
          | ':' :: r2 =>
            match parseVal fuel (skipWs r2) with
            | none => none
            | some (v, r3) =>
              let acc2 := dictSet acc (String.mk key) v
              match skipWs r3 with
              | ',' :: r4 =>
                match skipWs r4 with
                | d :: r5 =>
                  if d = dquote then parseObjBody fuel (d :: r5) acc2 else none
                | [] => none
              | d :: r4 =>
                if d = rbrace then some (.obj acc2, r4) else none
              | [] => none
          | _ => none
      else none

/-- Parse an array body (opening bracket and following whitespace already
consumed). -/
def parseArrBody : Nat → List Char → List Value → Option (Value × List Char)
  | 0, _, _ => none
  | fuel + 1, t, acc =>
    match t with
    | [] => none
    | c :: cs =>
      if c = ']' ∧ acc.isEmpty then some (.list [], cs)
      else
        match parseVal fuel t with
        | none => none
        | some (v, r1) =>
          let acc2 := acc ++ [v]
          match skipWs r1 with
          | ',' :: r2 => parseArrBody fuel (skipWs r2) acc2
          | d :: r2 =>
            if d = ']' then some (.list acc2, r2) else none
          | [] => none

end

/-- `json.loads`: parse a complete JSON document; anything but whitespace
after the top-level value is an error. -/
def parseJson (t : List Char) : Option Value :=
  match parseVal (2 * t.length + 8) (skipWs t) with
  | some (v, rest) => if (skipWs rest).isEmpty then some v else none
  | none => none

/-! ## The regex scans of `smart_parse_data`

`re.search(r'\{.*\}', text, re.DOTALL)` with a greedy `.*` matches, when it
matches at all, from the first opening brace to the last closing brace of
the whole text (the search starts at the leftmost feasible position, and
the greedy dot — which under DOTALL matches every character — stretches to
the last closing brace).  The fallback patterns are modelled by direct
scanners that reproduce the leftmost, non-overlapping semantics of
`re.findall`/`re.search` with lazy groups. -/

/-- The span matched by `re.search(r'\{.*\}', text, re.DOTALL)`: from the
first `{` to the last `}`, provided that `}` comes after that `{`. -/
def greedyBraceSpan (t : List Char) : Option (List Char) :=
  let s := t.dropWhile (fun c => c ≠ lbrace)
  if s.isEmpty then none
  else
    let r := s.reverse.dropWhile (fun c => c ≠ rbrace)
    if r.isEmpty then none else some r.reverse

/-- After a candidate closing quote of the key group, match
`\s*:\s*(\[.*?\])`: whitespace, a colon, whitespace, then a bracket span
ending at the first `]` (the lazy dot under DOTALL places no character
restriction).  Returns the bracket group (delimiters included) and the
rest of the input after it. -/
def afterColonBracket (t : List Char) : Option (List Char × List Char) :=
  match t.dropWhile pyWs with
  | ':' :: r1 =>
    match r1.dropWhile pyWs with
    | '[' :: r2 =>
      match r2.drop (r2.takeWhile (fun c => c ≠ ']')).length with
      | ']' :: r3 => some ('[' :: r2.takeWhile (fun c => c ≠ ']') ++ [']'], r3)
      | _ => none
    | _ => none
  | _ => none

/-- Lazy search for the closing quote of the key group of
`["\'](.*?)["\']\s*:\s*(\[.*?\])`: at each quote character, first try to
complete the match; on failure the quote is absorbed into the lazily
growing key group and the search continues. -/
def tryCloseKey (acc : List Char) (t : List Char) :
    Option (List Char × List Char × List Char) :=
  match t with
  | [] => none
  | c :: cs =>
    if isQuote c then
      match afterColonBracket cs with
      | some (g2, rest) => some (acc.reverse, g2, rest)
      | none => tryCloseKey (c :: acc) cs
    else tryCloseKey (c :: acc) cs

/-- `dropWhile` never lengthens a list. -/
theorem dropWhile_length_le (p : Char → Bool) (t : List Char) :
    (t.dropWhile p).length ≤ t.length := by
  induction t with
  | nil => simp
  | cons c cs ih =>
    rw [List.dropWhile]
    cases hp : p c <;> simp <;> omega

/-- A successful `dropWhile` step strictly shortens the list. -/
theorem dropWhile_cons_length {p : Char → Bool} {t r : List Char} {c : Char}
    (h : t.dropWhile p = c :: r) : r.length < t.length := by
  have h1 := dropWhile_length_le p t
  rw [h] at h1
  simp at h1
  omega

/-- A successful `drop` step strictly shortens the list. -/
theorem drop_cons_length {t r : List Char} {n : Nat} {c : Char}
    (h : t.drop n = c :: r) : r.length < t.length := by
  have h1 := List.length_drop n t
  rw [h] at h1
  simp at h1
  omega

/-- `afterColonBracket` consumes input when it succeeds. -/
theorem afterColonBracket_length {t g2 rest} (h : afterColonBracket t = some (g2, rest)) :
    rest.length < t.length := by
  unfold afterColonBracket at h
  split at h
  next r1 heq1 =>
    split at h
    next r2 heq2 =>
      split at h
      next r3 heq3 =>
        simp only [Option.some.injEq, Prod.mk.injEq] at h
        obtain ⟨-, h4⟩ := h
        subst h4
        exact Nat.lt_trans (Nat.lt_trans (drop_cons_length heq3) (dropWhile_cons_length heq2))
          (dropWhile_cons_length heq1)
      next => simp at h
    next => simp at h
  next => simp at h

/-- `tryCloseKey` consumes input when it succeeds. -/
theorem tryCloseKey_length {acc t k g2 rest} :
    tryCloseKey acc t = some (k, g2, rest) → rest.length < t.length := by
  induction t generalizing acc with
  | nil => intro h; simp [tryCloseKey] at h
  | cons c cs ih =>
    intro h
    rw [tryCloseKey] at h
    by_cases hq : isQuote c = true
    · rw [if_pos hq] at h
      cases hab : afterColonBracket cs with
      | some p =>
        rw [hab] at h
        obtain ⟨g, r⟩ := p
        simp only [Option.some.injEq, Prod.mk.injEq] at h
        obtain ⟨-, -, h3⟩ := h
        subst h3
        exact Nat.lt_trans (afterColonBracket_length hab) (by simp)
      | none =>
        rw [hab] at h
        exact Nat.lt_trans (ih h) (by simp)
    · rw [if_neg hq] at h
      exact Nat.lt_trans (ih h) (by simp)

/-- `re.findall(r'["\'](.*?)["\']\s*:\s*(\[.*?\])', text, re.DOTALL)`:
scan left to right; at each quote character attempt the lazy match; on
success record the two groups and resume after the match.  The step budget
set by the wrapper to the text length never runs out: every step consumes
at least one character (`tryCloseKey_length`). -/
def findLFAux : Nat → List Char → List (List Char × List Char)
  | 0, _ => []
  | fuel + 1, t =>
    match t with
    | [] => []
    | c :: cs =>
      if isQuote c then
        match tryCloseKey [] cs with
        | some (k, g2, rest) => (k, g2) :: findLFAux fuel rest
        | none => findLFAux fuel cs
      else findLFAux fuel cs

/-- The list-field scan at the adequate step budget. -/
def findLF (t : List Char) : List (List Char × List Char) :=
  findLFAux t.length t

/-- Lazy search for an item's closing quote in `["\'](.*?)["\']` without
DOTALL: the content may not contain a newline, so the first quote after the
opening one closes the item only if no newline intervenes. -/
def closeItem (acc : List Char) (t : List Char) : Option (List Char × List Char) :=
  match t with
  | [] => none
  | c :: cs =>
    if isQuote c then some (acc.reverse, cs)
    else if c = '\n' then none
    else closeItem (c :: acc) cs

/-- `closeItem` consumes input when it succeeds. -/
theorem closeItem_length {acc t item rest} :
    closeItem acc t = some (item, rest) → rest.length < t.length := by
  induction t generalizing acc with
  | nil => intro h; simp [closeItem] at h
  | cons c cs ih =>
    intro h
    rw [closeItem] at h
    by_cases hq : isQuote c = true
    · rw [if_pos hq] at h
      simp only [Option.some.injEq, Prod.mk.injEq] at h
      obtain ⟨-, h2⟩ := h
      subst h2
      simp
    · rw [if_neg hq] at h
      by_cases hn : c = '\n'
      · rw [if_pos hn] at h; simp at h
      · rw [if_neg hn] at h
        exact Nat.lt_trans (ih h) (by simp)

/-- `re.findall(r'["\'](.*?)["\']', raw_list)` (no DOTALL): the quoted
substrings, paired lazily left to right, whose contents carry no newline.
The step budget set by the wrapper to the text length never runs out: every
step consumes at least one character (`closeItem_length`). -/
def scanItemsAux : Nat → List Char → List (List Char)
  | 0, _ => []
  | fuel + 1, t =>
    match t with
    | [] => []
    | c :: cs =>
      if isQuote c then
        match closeItem [] cs with
        | some (item, rest) => item :: scanItemsAux fuel rest
        | none => scanItemsAux fuel cs
      else scanItemsAux fuel cs

/-- The quoted-item scan at the adequate step budget. -/
def scanItems (t : List Char) : List (List Char) :=
  scanItemsAux t.length t

/-- The bracket interior of a `"key": ["a","b"]`-shaped substring: each
item wrapped in its quote character, consecutive items joined by separator
text (`", "` in the canonical shape).  Extra or missing separators merely
abut the quoted items. -/
def quotedJoin : List (Char × List Char) → List (List Char) → List Char
  | [], _ => []
  | [(qc, i)], _ => qc :: i ++ [qc]
  | (qc, i) :: it2 :: rest, sep :: seps =>
    qc :: i ++ [qc] ++ sep ++ quotedJoin (it2 :: rest) seps
  | (qc, i) :: it2 :: rest, [] =>
    qc :: i ++ [qc] ++ quotedJoin (it2 :: rest) []

/-- Case-insensitive literal-word match: returns the rest of the input
when `t` starts with `w` up to ASCII case. -/
def matchWordCI : List Char → List Char → Option (List Char)
  | [], t => some t
  | _ :: _, [] => none
  | w :: ws, c :: cs =>
    if c.toLower = w.toLower then matchWordCI ws cs else none

/-- The alternation `(Summary|Patient Summary|Overview)`, tried in order. -/
def summaryWords : List (List Char) :=
  ["Summary".toList, "Patient Summary".toList, "Overview".toList]

/-- Attempt the summary pattern just after an opening quote: one of the
words (case-insensitively), a quote, `\s*:\s*`, a quote, then a lazy
newline-free scalar closed by a quote.  Returns the captured scalar. -/
def trySummaryAt (t : List Char) : Option (List Char) :=
  summaryWords.foldr
    (fun w found =>
      match matchWordCI w t with
      | some r1 =>
        match r1 with
        | q :: r2 =>
          if isQuote q then
            match r2.dropWhile pyWs with
            | ':' :: r3 =>
              match (r3.dropWhile pyWs) with
              | q2 :: r4 =>
                if isQuote q2 then
                  match closeItem [] r4 with
                  | some (v, _) => some v
                  | none => found
                else found
              | [] => found
            | _ => found
          else found
        | [] => found
      | none => found)
    none

/-- `re.search` for the scalar-summary pattern: leftmost position wins. -/
def summarySearch (t : List Char) : Option (List Char) :=
  match t with
  | [] => none
  | c :: cs =>
    if isQuote c then
      match trySummaryAt cs with
      | some v => some v
      | none => summarySearch cs
    else summarySearch cs

/-! ## smart_parse_data (src/app.py lines 74-122) -/

/-- Stage 1: `text.replace("```json", "").replace("```", "").strip()`. -/
def cleanText (t : List Char) : List Char :=
  pyStrip (pyReplace "```".toList [] (pyReplace "```json".toList [] t))

/-- Stage 2, the strict path: search for the greedy brace span and parse it
with `json.loads`; on success return the filtered mapping, otherwise fall
through.  A span delimited by braces parses, when it parses at all, to an
object, so the non-object success branch below is unreachable and mapped to
the same fall-through as a parse error. -/
def strictStage (c : List Char) : Option Record :=
  match greedyBraceSpan c with
  | some span =>
    match parseJson span with
    | some (.obj fields) => some (filter_unwanted_keys fields)
    | _ => none
  | none => none

/-- Stage 3, the regex fallback: collect the list-field matches (keeping a
key only when its bracket has quoted items) under dict-assignment
semantics, then the scalar-summary match under the canonical key. -/
def regexStage (c : List Char) : Record :=
  let data := (findLF c).foldl
    (fun d m =>
      let items := scanItems m.2
      if items.isEmpty then d
      else dictSet d (String.mk m.1) (.list (items.map (fun i => .str (String.mk i)))))
    []
  match summarySearch c with
  | some v => dictSet data "Patient Summary" (.str (String.mk v))
  | none => data

/-- The regex path continued: filter the recovered record and, when the
result is empty, fall back to the single diagnostic key wrapping the
cleaned text (lines 115-122). -/
def fallbackStage (c : List Char) : Record :=
  let filtered := filter_unwanted_keys (regexStage c)
  if filtered.isEmpty then [("Medical Analysis", .list [.str (String.mk c)])]
  else filtered

/-- `smart_parse_data`. -/
def smart_parse_data (text : String) : Record :=
  let c := cleanText text.toList
  match strictStage c with
  | some r => r
  | none => fallbackStage c

/-- The outcome of a Python call: a value or a propagated exception. -/
inductive PyOutcome where
  | ok (r : Record)
  | raises (exn : String)

/-- `smart_parse_data` as called from the route (line 356): `raw_text` may
be `None` — the completion client returns `None` on failure — in which case
the first statement `text.replace(...)` raises `AttributeError` outside any
`try` block. -/
def normalize (rawText : Option String) : PyOutcome :=
  match rawText with
  | none => .raises "AttributeError"
  | some t => .ok (smart_parse_data t)

/-! ## classify_medical (src/app.py lines 185-228) -/

/-- The classification sample: `text.strip()[:2000]`. -/
def classifySample (t : String) : String :=
  String.mk ((pyStrip t.toList).take 2000)

/-- The strict binary-classification prompt built around the sample. -/
def classifierPrompt (sample : String) : String :=
  "You are a classifier. Decide whether the following user-provided text is a MEDICAL document or query.\n"
    ++ "Respond with a single word: MEDICAL or NON-MEDICAL. Do not add any other text.\n\n"
    ++ "Text:\n" ++ sample ++ "\n"

/-- The decision extracted from a classifier reply (lines 211-223): `none`
when the reply is absent or empty (a falsy `ai_response`) or mentions
neither token in its stripped upper-cased form. -/
def gateDecision (reply : Option String) : Option Bool :=
  match reply with
  | none => none
  | some r =>
    if r = "" then none
    else
      let ru := pyUpper (pyStrip r.toList)
      let med := isSubstrOf "MEDICAL".toList ru
      let nonmed := isSubstrOf "NON-MEDICAL".toList ru
      if med && !nonmed then some true
      else if nonmed && !med then some false
      else if med then some true
      else if nonmed then some false
      else none

/-- `classify_medical(text)`, with the completion client's reply passed in
explicitly: `aiReply = none` models an unreachable client (or
`use_online=False`), and `text = none` models `None` or any non-string
argument, both rejected by the opening guard
`if not text or not isinstance(text, str)`. -/
def classify_medical (text : Option String) (aiReply : Option String) : Bool :=
  match text with
  | none => false
  | some t =>
    if t = "" then false
    else
      match gateDecision aiReply with
      | some d => d
      | none => true

/-! ## The /chat route (src/app.py lines 253-297) -/

/-- A `{role, content}` chat turn. -/
structure ChatMsg where
  role : String
  content : String
deriving DecidableEq

/-- The fixed system instruction of the `/chat` route (lines 265-270),
a Python triple-quoted string with its embedded indentation. -/
def chatSystemPrompt : String :=
  "You are a medical AI assistant. Prioritize medical topics and provide accurate, concise medical information, analysis, and guidance.\n"
    ++ "        If a user asks a question that is not medical in nature, do NOT rigidly repeat a single refusal phrase. Instead, briefly state that your primary focus is medical topics and either:\n"
    ++ "        - Offer to reframe the question toward health/medical aspects if appropriate, or\n"
    ++ "        - Provide a short, neutral, high-level response when the question is harmless and does not require specialist non-medical expertise.\n\n"
    ++ "        When you do answer medical questions, remind users that your responses are informational and not a replacement for professional medical advice. Keep tone helpful and concise."

/-- Python `history[-10:]`: the most recent `n` entries. -/
def lastN (n : Nat) (l : List ChatMsg) : List ChatMsg :=
  l.drop (l.length - n)

/-- The message sequence the `/chat` route forwards upstream: the system
instruction, the last ten history turns, then the user message. -/
def chat_messages (history : List ChatMsg) (user_message : String) : List ChatMsg :=
  ⟨"system", chatSystemPrompt⟩ :: (lastN 10 history ++ [⟨"user", user_message⟩])

/-- The `/chat` route handler, with the upstream chat API abstracted as a
function from the forwarded messages to an optional reply (`none` models a
transport failure or a response body without `choices`). -/
def chat (message : String) (history : List ChatMsg)
    (api : List ChatMsg → Option String) : Except String String :=
  let user_message := String.mk (pyStrip message.toList)
  if user_message = "" then .error "Empty message"
  else
    match api (chat_messages history user_message) with
    | some reply => .ok reply
    | none => .error "API Error"

/-! ## Helper lemmas -/

/-- Membership in the filtered record certifies the keep-condition. -/
theorem keepEntry_of_mem_filter {kv : String × Value} {d : Record}
    (h : kv ∈ filter_unwanted_keys d) : keepEntry kv = true :=
  (List.mem_filter.mp h).2

/-- The components of a true keep-condition. -/
theorem keepEntry_unpack {k : String} {v : Value} (h : keepEntry (k, v) = true) :
    keyBad k = false ∧ pyFalsy v = false ∧ valueBad v = false := by
  simp only [keepEntry, Bool.and_eq_true, Bool.not_eq_true'] at h
  exact ⟨h.1.1, h.1.2, h.2⟩

/-- A truthy value is neither the empty string nor the empty list. -/
theorem pyFalsy_false_not_empty {v : Value} (h : pyFalsy v = false) :
    v ≠ .str "" ∧ v ≠ .list [] := by
  constructor <;> rintro rfl <;> simp [pyFalsy] at h

/-- `smart_parse_data` unfolded to its stage dispatch. -/
theorem smart_parse_data_cases (t : String) :
    smart_parse_data t =
      match strictStage (cleanText t.toList) with
      | some r => r
      | none => fallbackStage (cleanText t.toList) := by
  simp only [smart_parse_data]

/-- When the strict stage does not succeed and the filtered regex record is
empty, the result is the single diagnostic key wrapping the cleaned text. -/
theorem fallback_of_empty_filter (t : String)
    (h1 : strictStage (cleanText t.toList) = none)
    (h2 : (filter_unwanted_keys (regexStage (cleanText t.toList))).isEmpty = true) :
    smart_parse_data t =
      [("Medical Analysis", .list [.str (String.mk (cleanText t.toList))])] := by
  rw [smart_parse_data_cases, h1]
  simp only [fallbackStage, h2, if_true]

/-- A successful strict stage is the filter of some parsed field list. -/
theorem strictStage_eq_filter {c : List Char} {r : Record}
    (h : strictStage c = some r) : ∃ fields, r = filter_unwanted_keys fields := by
  unfold strictStage at h
  split at h
  · split at h
    · next fields heq =>
      simp only [Option.some.injEq] at h
      exact ⟨fields, h.symm⟩
    · simp at h
  · simp at h

/-! ## List and scanner lemmas for the regex-fallback analysis -/

/-- `dropWhile` empties a list every element of which satisfies the
predicate. -/
theorem dropWhile_eq_nil_of_all {p : Char → Bool} {A : List Char}
    (h : ∀ c ∈ A, p c = true) : A.dropWhile p = [] := by
  induction A with
  | nil => rfl
  | cons c cs ih =>
    rw [List.dropWhile, h c (by simp)]
    exact ih fun x hx => h x (by simp [hx])

/-- `dropWhile` stops no later than the first failing element. -/
theorem dropWhile_append_neg {p : Char → Bool} (A : List Char) {b : Char}
    (B : List Char) (hb : p b = false) :
    (A ++ b :: B).dropWhile p = A.dropWhile p ++ b :: B := by
  induction A with
  | nil => simp [List.dropWhile, hb]
  | cons c cs ih =>
    simp only [List.cons_append, List.dropWhile]
    cases hc : p c
    · simp
    · simpa using ih

/-- `dropWhile` jumps a fully-satisfying prefix to a failing element. -/
theorem dropWhile_ws_skip {p : Char → Bool} {A : List Char} {b : Char}
    (B : List Char) (hA : ∀ c ∈ A, p c = true) (hb : p b = false) :
    (A ++ b :: B).dropWhile p = b :: B := by
  rw [dropWhile_append_neg A B hb, dropWhile_eq_nil_of_all hA]
  rfl

/-- `takeWhile` captures exactly a fully-satisfying prefix. -/
theorem takeWhile_append_of_all {p : Char → Bool} {A : List Char} {b : Char}
    (B : List Char) (hA : ∀ c ∈ A, p c = true) (hb : p b = false) :
    (A ++ b :: B).takeWhile p = A := by
  induction A with
  | nil => simp [List.takeWhile, hb]
  | cons c cs ih =>
    simp only [List.cons_append, List.takeWhile, hA c (by simp)]
    exact congrArg (c :: ·) (ih fun x hx => hA x (by simp [hx]))

/-- The mirrored skip for the trailing strip. -/
theorem dropEndWhile_append_neg {p : Char → Bool} (A : List Char) {b : Char}
    (B : List Char) (hb : p b = false) :
    dropEndWhile p (A ++ b :: B) = A ++ b :: dropEndWhile p B := by
  unfold dropEndWhile
  rw [show (A ++ b :: B).reverse = B.reverse ++ b :: A.reverse by simp,
    dropWhile_append_neg B.reverse A.reverse hb]
  simp

/-- Characters surviving `dropWhile` come from the original list. -/
theorem mem_of_mem_dropWhile {p : Char → Bool} {A : List Char} {c : Char}
    (h : c ∈ A.dropWhile p) : c ∈ A := by
  induction A with
  | nil => simpa using h
  | cons d ds ih =>
    rw [List.dropWhile] at h
    cases hd : p d
    · rw [hd] at h; exact h
    · rw [hd] at h; exact List.mem_cons_of_mem d (ih h)

/-- Characters surviving `dropEndWhile` come from the original list. -/
theorem mem_of_mem_dropEndWhile {p : Char → Bool} {A : List Char} {c : Char}
    (h : c ∈ dropEndWhile p A) : c ∈ A := by
  unfold dropEndWhile at h
  rw [List.mem_reverse] at h
  have := mem_of_mem_dropWhile h
  rwa [List.mem_reverse] at this

/-- The list-field scan finds nothing in quote-free text. -/
theorem findLFAux_no_quotes (fuel : Nat) (A : List Char)
    (h : ∀ c ∈ A, isQuote c = false) : findLFAux fuel A = [] := by
  induction fuel generalizing A with
  | zero => rfl
  | succ fuel ih =>
    cases A with
    | nil => rfl
    | cons c cs =>
      simp only [findLFAux, h c (by simp)]
      exact ih cs fun x hx => h x (by simp [hx])

/-- The quoted-item scan finds nothing in quote-free text. -/
theorem scanItemsAux_no_quotes (fuel : Nat) (A : List Char)
    (h : ∀ c ∈ A, isQuote c = false) : scanItemsAux fuel A = [] := by
  induction fuel generalizing A with
  | zero => rfl
  | succ fuel ih =>
    cases A with
    | nil => rfl
    | cons c cs =>
      simp only [scanItemsAux, h c (by simp)]
      exact ih cs fun x hx => h x (by simp [hx])

/-- The summary search finds nothing in quote-free text. -/
theorem summarySearch_no_quotes (A : List Char)
    (h : ∀ c ∈ A, isQuote c = false) : summarySearch A = none := by
  induction A with
  | nil => rfl
  | cons c cs ih =>
    simp only [summarySearch, h c (by simp)]
    exact ih fun x hx => h x (by simp [hx])

/-- The greedy brace search fails on brace-free text. -/
theorem greedyBraceSpan_none {A : List Char} (h : ∀ c ∈ A, c ≠ lbrace) :
    greedyBraceSpan A = none := by
  have hd : A.dropWhile (fun c => c ≠ lbrace) = [] :=
    dropWhile_eq_nil_of_all fun c hc => by simp [h c hc]
  simp only [greedyBraceSpan, hd]
  rfl

/-- Replacing a pattern that starts with a character the text never
contains is the identity. -/
theorem pyReplaceFuel_absent (b : Char) (pat rep : List Char) (fuel : Nat)
    (A : List Char) (h : ∀ c ∈ A, c ≠ b) :
    pyReplaceFuel (b :: pat) rep fuel A = A := by
  induction fuel generalizing A with
  | zero => rfl
  | succ fuel ih =>
    cases A with
    | nil => rfl
    | cons c cs =>
      have hs : startsWithPat (b :: pat) (c :: cs) = false := by
        simp only [startsWithPat, Bool.and_eq_false_iff]
        exact Or.inl (by simp [(h c (by simp)).symm, eq_comm])
      simp only [pyReplaceFuel, List.isEmpty, hs]
      exact congrArg (c :: ·) (ih cs fun x hx => h x (by simp [hx]))

/-- On backtick-free text the fence stripping is just `strip()`. -/
theorem cleanText_no_btick {t : List Char} (h : ∀ c ∈ t, c ≠ btick) :
    cleanText t = pyStrip t := by
  unfold cleanText pyReplace
  rw [show "```json".toList = btick :: "``json".toList from rfl,
    show "```".toList = btick :: "``".toList from rfl,
    pyReplaceFuel_absent btick _ _ _ _ h, pyReplaceFuel_absent btick _ _ _ _ h]

/-- A whitespace character is none of the structural characters of the
list-field shape. -/
theorem pyWs_ne (c : Char) (h : pyWs c = true) :
    isQuote c = false ∧ c ≠ lbrace ∧ c ≠ btick ∧ c ≠ ']' := by
  revert h
  simp only [pyWs, Bool.or_eq_true, decide_eq_true_eq]
  rintro (((((rfl | rfl) | rfl) | rfl) | rfl) | rfl) <;>
    exact ⟨by decide, by decide, by decide, by decide⟩

/-- A quote character is none of the structural characters either. -/
theorem isQuote_ne (c : Char) (h : isQuote c = true) :
    pyWs c = false ∧ c ≠ lbrace ∧ c ≠ btick ∧ c ≠ ']' ∧ c ≠ '\n' := by
  revert h
  simp only [isQuote, Bool.or_eq_true, decide_eq_true_eq]
  rintro (rfl | rfl) <;>
    exact ⟨by decide, by decide, by decide, by decide, by decide⟩

/-- Pointwise properties distribute over appends. -/
theorem all_append {P : Char → Prop} {A B : List Char}
    (hA : ∀ c ∈ A, P c) (hB : ∀ c ∈ B, P c) : ∀ c ∈ A ++ B, P c := by
  intro c hc
  rcases List.mem_append.mp hc with h | h
  · exact hA c h
  · exact hB c h

/-- Pointwise properties distribute over cons. -/
theorem all_cons {P : Char → Prop} {b : Char} {B : List Char}
    (hb : P b) (hB : ∀ c ∈ B, P c) : ∀ c ∈ b :: B, P c := by
  intro c hc
  rcases List.mem_cons.mp hc with rfl | h
  · exact hb
  · exact hB c h

/-- The empty list satisfies any pointwise property. -/
theorem all_nil {P : Char → Prop} : ∀ c ∈ ([] : List Char), P c :=
  fun c hc => absurd hc (List.not_mem_nil c)

/-- Pointwise properties of singletons. -/
theorem all_singleton {P : Char → Prop} {b : Char} (hb : P b) :
    ∀ c ∈ [b], P c :=
  all_cons hb all_nil

/-- A pointwise property of all item quotes, item characters and separator
characters holds of every character of the quoted join. -/
theorem quotedJoin_all {P : Char → Prop} {items : List (Char × List Char)}
    {seps : List (List Char)}
    (hit : ∀ it ∈ items, P it.1 ∧ ∀ c ∈ it.2, P c)
    (hsep : ∀ sep ∈ seps, ∀ c ∈ sep, P c) :
    ∀ c ∈ quotedJoin items seps, P c := by
  induction items generalizing seps with
  | nil => intro c hc; simp [quotedJoin] at hc
  | cons it rest ih =>
    obtain ⟨qc, i⟩ := it
    have hq : P qc := (hit (qc, i) (by simp)).1
    have hi : ∀ c ∈ i, P c := (hit (qc, i) (by simp)).2
    cases rest with
    | nil =>
      rw [quotedJoin]
      exact all_cons hq (all_append hi (all_singleton hq))
    | cons it2 rest2 =>
      have hrest : ∀ it ∈ it2 :: rest2, P it.1 ∧ ∀ c ∈ it.2, P c :=
        fun jt hjt => hit jt (List.mem_cons_of_mem _ hjt)
      cases seps with
      | nil =>
        rw [quotedJoin]
        exact all_cons hq (all_append (all_append hi (all_singleton hq))
          (ih hrest fun sp hsp => absurd hsp (List.not_mem_nil sp)))
      | cons sep seps2 =>
        rw [quotedJoin]
        exact all_cons hq (all_append (all_append (all_append hi (all_singleton hq))
          (hsep sep (by simp)))
          (ih hrest fun sp hsp => hsep sp (List.mem_cons_of_mem _ hsp)))

/-- `afterColonBracket` on exactly-shaped input: whitespace, the colon,
whitespace, then the bracket whose interior carries no closing bracket. -/
theorem afterColonBracket_shaped (w1 w2 inner s : List Char)
    (hw1 : ∀ c ∈ w1, pyWs c = true) (hw2 : ∀ c ∈ w2, pyWs c = true)
    (hinner : ∀ c ∈ inner, c ≠ ']') :
    afterColonBracket (w1 ++ ':' :: (w2 ++ '[' :: (inner ++ ']' :: s))) =
      some ('[' :: inner ++ [']'], s) := by
  have h1 : (w1 ++ ':' :: (w2 ++ '[' :: (inner ++ ']' :: s))).dropWhile pyWs =
      ':' :: (w2 ++ '[' :: (inner ++ ']' :: s)) :=
    dropWhile_ws_skip _ hw1 (by decide)
  have h2 : (w2 ++ '[' :: (inner ++ ']' :: s)).dropWhile pyWs =
      '[' :: (inner ++ ']' :: s) :=
    dropWhile_ws_skip _ hw2 (by decide)
  have h3 : (inner ++ ']' :: s).takeWhile (fun c => c ≠ ']') = inner :=
    takeWhile_append_of_all s (fun c hc => by simp [hinner c hc]) (by decide)
  have h4 : (inner ++ ']' :: s).drop inner.length = ']' :: s := by
    rw [List.drop_append_of_le_length (by simp)]
    simp
  simp only [afterColonBracket, h1, h2, h3, h4]

/-- The lazy key search walks a quote-free key to its closing quote, where
the colon-bracket continuation completes the match. -/
theorem tryCloseKey_shaped (acc key : List Char) (q2 : Char)
    (w1 w2 inner s : List Char)
    (hkey : ∀ c ∈ key, isQuote c = false) (hq2 : isQuote q2 = true)
    (hw1 : ∀ c ∈ w1, pyWs c = true) (hw2 : ∀ c ∈ w2, pyWs c = true)
    (hinner : ∀ c ∈ inner, c ≠ ']') :
    tryCloseKey acc (key ++ q2 :: (w1 ++ ':' :: (w2 ++ '[' :: (inner ++ ']' :: s)))) =
      some (acc.reverse ++ key, ('[' :: inner ++ [']'], s)) := by
  induction key generalizing acc with
  | nil =>
    simp only [List.nil_append, tryCloseKey, hq2, if_true,
      afterColonBracket_shaped w1 w2 inner s hw1 hw2 hinner]
    simp
  | cons c cs ih =>
    have hc : isQuote c = false := hkey c (by simp)
    simp only [List.cons_append, tryCloseKey, hc, Bool.false_eq_true, if_false,
      List.append_eq]
    rw [ih (c :: acc) fun x hx => hkey x (by simp [hx])]
    simp

/-- The lazy item search walks a quote-free, newline-free item to its
closing quote. -/
theorem closeItem_shaped (acc i : List Char) (qc : Char) (r : List Char)
    (hi : ∀ c ∈ i, isQuote c = false ∧ c ≠ '\n') (hqc : isQuote qc = true) :
    closeItem acc (i ++ qc :: r) = some (acc.reverse ++ i, r) := by
  induction i generalizing acc with
  | nil =>
    simp only [List.nil_append, closeItem, hqc, if_true]
    simp
  | cons c cs ih =>
    obtain ⟨hc1, hc2⟩ := hi c (by simp)
    simp only [List.cons_append, closeItem, hc1, Bool.false_eq_true, if_false,
      List.append_eq]
    rw [if_neg hc2, ih (c :: acc) fun x hx => hi x (by simp [hx])]
    simp

/-- The list-field scan passes over a quote-free prefix, spending one step
per character. -/
theorem findLFAux_skip (A : List Char) (fuel : Nat) (r : List Char)
    (hA : ∀ c ∈ A, isQuote c = false) :
    findLFAux (A.length + fuel) (A ++ r) = findLFAux fuel r := by
  induction A with
  | nil => simp
  | cons c cs ih =>
    have hc := hA c (by simp)
    rw [show (c :: cs).length + fuel = (cs.length + fuel) + 1 by simp; omega]
    simp only [List.cons_append, findLFAux, hc, Bool.false_eq_true, if_false]
    exact ih fun x hx => hA x (by simp [hx])

/-- The quoted-item scan passes over a quote-free prefix, spending one step
per character. -/
theorem scanItemsAux_skip (A : List Char) (fuel : Nat) (r : List Char)
    (hA : ∀ c ∈ A, isQuote c = false) :
    scanItemsAux (A.length + fuel) (A ++ r) = scanItemsAux fuel r := by
  induction A with
  | nil => simp
  | cons c cs ih =>
    have hc := hA c (by simp)
    rw [show (c :: cs).length + fuel = (cs.length + fuel) + 1 by simp; omega]
    simp only [List.cons_append, scanItemsAux, hc, Bool.false_eq_true, if_false]
    exact ih fun x hx => hA x (by simp [hx])

/-- With an adequate step budget, the quoted-item scan over a quoted join
followed by a quote-free tail recovers exactly the item contents, in
order. -/
theorem scanItemsAux_join :
    ∀ (items : List (Char × List Char)) (seps : List (List Char))
      (tail : List Char) (fuel : Nat),
      (∀ it ∈ items, isQuote it.1 = true ∧ ∀ c ∈ it.2, isQuote c = false ∧ c ≠ '\n') →
      (∀ sep ∈ seps, ∀ c ∈ sep, isQuote c = false) →
      (∀ c ∈ tail, isQuote c = false) →
      (quotedJoin items seps ++ tail).length ≤ fuel →
      scanItemsAux fuel (quotedJoin items seps ++ tail) = items.map Prod.snd := by
  intro items
  induction items with
  | nil =>
    intro seps tail fuel _ _ htail _
    rw [quotedJoin]
    simp only [List.nil_append, List.map_nil]
    exact scanItemsAux_no_quotes fuel tail htail
  | cons it rest ih =>
    intro seps tail fuel hit hsep htail hfuel
    obtain ⟨qc, i⟩ := it
    have hq := (hit (qc, i) (by simp)).1
    have hi := (hit (qc, i) (by simp)).2
    cases rest with
    | nil =>
      rw [quotedJoin] at hfuel ⊢
      cases fuel with
      | zero => simp at hfuel
      | succ f =>
        have hsh : (i ++ [qc]) ++ tail = i ++ qc :: tail := by simp
        simp only [List.cons_append, scanItemsAux, hq, if_true, hsh,
          closeItem_shaped [] i qc tail hi hq]
        simp only [List.reverse_nil, List.nil_append, List.map_cons,
          List.map_nil]
        rw [scanItemsAux_no_quotes f tail htail]
    | cons it2 rest2 =>
      have hrest : ∀ jt ∈ it2 :: rest2,
          isQuote jt.1 = true ∧ ∀ c ∈ jt.2, isQuote c = false ∧ c ≠ '\n' :=
        fun jt hjt => hit jt (List.mem_cons_of_mem _ hjt)
      cases seps with
      | nil =>
        rw [quotedJoin] at hfuel ⊢
        cases fuel with
        | zero => simp at hfuel
        | succ f =>
          have hsh : ((i ++ [qc]) ++ quotedJoin (it2 :: rest2) []) ++ tail =
              i ++ qc :: (quotedJoin (it2 :: rest2) [] ++ tail) := by simp
          simp only [List.cons_append, scanItemsAux, hq, if_true, hsh,
            closeItem_shaped [] i qc _ hi hq]
          simp only [List.reverse_nil, List.nil_append, List.map_cons]
          have hf2 : (quotedJoin (it2 :: rest2) [] ++ tail).length ≤ f := by
            simp only [List.length_cons, List.length_append] at hfuel ⊢
            omega
          rw [ih [] tail f hrest (fun sp hsp => absurd hsp (List.not_mem_nil sp))
            htail hf2]
          simp
      | cons sep seps2 =>
        have hsepc : ∀ c ∈ sep, isQuote c = false := hsep sep (by simp)
        rw [quotedJoin] at hfuel ⊢
        cases fuel with
        | zero => simp at hfuel
        | succ f =>
          have hsh : (((i ++ [qc]) ++ sep) ++ quotedJoin (it2 :: rest2) seps2) ++ tail =
              i ++ qc :: (sep ++ (quotedJoin (it2 :: rest2) seps2 ++ tail)) := by
            simp
          simp only [List.cons_append, scanItemsAux, hq, if_true, hsh,
            closeItem_shaped [] i qc _ hi hq]
          simp only [List.reverse_nil, List.nil_append, List.map_cons]
          have hf2 : sep.length + (quotedJoin (it2 :: rest2) seps2 ++ tail).length ≤ f := by
            simp only [List.length_cons, List.length_append] at hfuel ⊢
            omega
          rw [show f = sep.length + (f - sep.length) by omega,
            scanItemsAux_skip sep _ _ hsepc,
            ih seps2 tail (f - sep.length) hrest
              (fun sp hsp => hsep sp (List.mem_cons_of_mem _ hsp)) htail
              (by simp only [List.length_append] at hf2 ⊢; omega)]
          simp

/-! ## C1 -/

/-- C1: for an absent raw completion the claim fails in the code: the very
first statement of `smart_parse_data`, `text.replace(...)`, dereferences
`None` and raises `AttributeError` (outside any `try`), so no
error-indicator record is returned. -/
theorem normalize_none_raises : normalize none = .raises "AttributeError" := rfl

/-! ## C2 -/

/-- C2: the Domain Gate on the exact reply `NON-MEDICAL` returns `true`,
not `false` as claimed: `MEDICAL` is a substring of `NON-MEDICAL`, so the
negative branch of the decision rule is unreachable and the ambiguous
branch fires with its positive default. -/
theorem classify_nonmedical_reply_returns_true :
    classify_medical (some "Patient has a fever") (some "NON-MEDICAL") = true := by
  decide

/-! ## C10 -/

/-- C10: an empty-string (or `None`/non-string) input is rejected
immediately by the opening guard — the result is `false` whatever the
completion client would reply, departing from the fail-open default. -/
theorem classify_medical_guard_rejects (reply : Option String) :
    classify_medical none reply = false ∧ classify_medical (some "") reply = false := by
  exact ⟨rfl, rfl⟩

/-! ## C9 -/

/-- C9: the chat handler forwards exactly the fixed system instruction,
then the most recent ten history entries, then the user message; on a
successful upstream call it returns the reply unmodified. -/
theorem chat_forwards_and_passes_reply (m : String) (h : List ChatMsg)
    (api : List ChatMsg → Option String) (r : String)
    (hm : String.mk (pyStrip m.toList) ≠ "")
    (hapi : api (chat_messages h (String.mk (pyStrip m.toList))) = some r) :
    chat_messages h (String.mk (pyStrip m.toList)) =
      ⟨"system", chatSystemPrompt⟩ ::
        (h.drop (h.length - 10) ++ [⟨"user", String.mk (pyStrip m.toList)⟩]) ∧
    chat m h api = .ok r := by
  refine ⟨rfl, ?_⟩
  unfold chat
  rw [if_neg hm, hapi]

/-- C9 witness: a concrete turn with an eleven-entry history. -/
theorem chat_forwards_witness :
    String.mk (pyStrip " hi ".toList) ≠ "" ∧
    chat " hi " (List.replicate 11 ⟨"user", "x"⟩) (fun _ => some "hello") = .ok "hello" := by
  refine ⟨by decide, ?_⟩
  exact (chat_forwards_and_passes_reply " hi " (List.replicate 11 ⟨"user", "x"⟩)
    (fun _ => some "hello") "hello" (by decide) rfl).2

/-! ## C5 -/

/-- C5: the unwanted-key filter is idempotent — re-running it on an
already-filtered record is a no-op. -/
theorem filter_unwanted_keys_idempotent (x : Record) :
    filter_unwanted_keys (filter_unwanted_keys x) = filter_unwanted_keys x := by
  simp [filter_unwanted_keys, List.filter_filter]

/-! ## C3 -/

/-- C3 counterexample: a syntactically valid JSON object whose only key is
denylisted takes the strict-JSON success path, where the filtered record is
returned even when empty — the caller receives an empty record, with no
fallback diagnostic key. -/
theorem strict_path_returns_empty_record :
    smart_parse_data "\x7b\"contact\": [\"x\"]\x7d" = [] := rfl

/-- C3 (amended): the empty-record fallback lives only on the regex path:
when the strict stage does not succeed and the filtered regex-extracted
record is empty, `smart_parse_data` returns exactly the single
`Medical Analysis` key wrapping the cleaned (fence-stripped, whitespace-
stripped) text. -/
theorem fallback_single_key_when_empty (t : String)
    (h1 : strictStage (cleanText t.toList) = none)
    (h2 : (filter_unwanted_keys (regexStage (cleanText t.toList))).isEmpty = true) :
    smart_parse_data t =
      [("Medical Analysis", .list [.str (String.mk (cleanText t.toList))])] :=
  fallback_of_empty_filter t h1 h2

/-- C3 witness: a plain word reaches the diagnostic fallback. -/
theorem fallback_single_key_witness :
    strictStage (cleanText "hello".toList) = none ∧
    (filter_unwanted_keys (regexStage (cleanText "hello".toList))).isEmpty = true ∧
    smart_parse_data "hello" =
      [("Medical Analysis", .list [.str (String.mk (cleanText "hello".toList))])] :=
  ⟨rfl, rfl, fallback_single_key_when_empty "hello" rfl rfl⟩

/-! ## C6 -/

/-- C6 counterexample: this input contains the syntactically valid JSON
object `{"Findings": "ok"}` surrounded by prose, but the stray closing
brace in the prose makes the greedy first-brace-to-last-brace span
unparsable, and normalize returns the diagnostic fallback rather than the
object's fields. -/
theorem stray_brace_defeats_strict_path :
    parseJson "\x7b\"Findings\": \"ok\"\x7d".toList = some (.obj [("Findings", .str "ok")]) ∧
    isSubstrOf "\x7b\"Findings\": \"ok\"\x7d".toList
      "\x7b\"Findings\": \"ok\"\x7d \x7d".toList = true ∧
    smart_parse_data "\x7b\"Findings\": \"ok\"\x7d \x7d" =
      [("Medical Analysis", .list [.str "\x7b\"Findings\": \"ok\"\x7d \x7d"])] :=
  ⟨rfl, rfl, rfl⟩

/-- C6 (amended): when the greedy first-brace-to-last-brace span of the
cleaned text itself parses as a JSON object, normalize returns exactly that
object's fields as filtered by the unwanted-key filter. -/
theorem strict_path_exact_fields (t : String) (span : List Char)
    (fields : List (String × Value))
    (h1 : greedyBraceSpan (cleanText t.toList) = some span)
    (h2 : parseJson span = some (.obj fields)) :
    smart_parse_data t = filter_unwanted_keys fields := by
  rw [smart_parse_data_cases]
  simp only [strictStage, h1, h2]

/-- C6 witness: the specification's prose-wrapped example. -/
theorem strict_path_exact_fields_witness :
    greedyBraceSpan (cleanText "Sure! \x7b\"vitals\": [\"BP 120/80\", \"HR 72\"]\x7d Let me know if you need more.".toList) =
      some "\x7b\"vitals\": [\"BP 120/80\", \"HR 72\"]\x7d".toList ∧
    parseJson "\x7b\"vitals\": [\"BP 120/80\", \"HR 72\"]\x7d".toList =
      some (.obj [("vitals", .list [.str "BP 120/80", .str "HR 72"])]) ∧
    smart_parse_data "Sure! \x7b\"vitals\": [\"BP 120/80\", \"HR 72\"]\x7d Let me know if you need more." =
      filter_unwanted_keys [("vitals", .list [.str "BP 120/80", .str "HR 72"])] :=
  ⟨rfl, rfl, strict_path_exact_fields _ _ _ rfl rfl⟩

/-! ## C4 -/

/-- C4: a record returned by `smart_parse_data` never contains a key whose
lowercased, space-to-underscore-normalized form contains a denylisted
substring, and never a key whose value is the empty string or the empty
list. -/
theorem smart_parse_data_invariant (t : String) (k : String) (v : Value)
    (h : (k, v) ∈ smart_parse_data t) :
    keyBad k = false ∧ v ≠ .str "" ∧ v ≠ .list [] := by
  rw [smart_parse_data_cases] at h
  cases hs : strictStage (cleanText t.toList) with
  | some r =>
    rw [hs] at h
    obtain ⟨fields, rfl⟩ := strictStage_eq_filter hs
    obtain ⟨h1, h2, -⟩ := keepEntry_unpack (keepEntry_of_mem_filter h)
    exact ⟨h1, pyFalsy_false_not_empty h2⟩
  | none =>
    rw [hs] at h
    simp only [fallbackStage] at h
    split at h
    · simp only [List.mem_singleton, Prod.mk.injEq] at h
      obtain ⟨rfl, rfl⟩ := h
      refine ⟨by decide, by simp, by simp⟩
    · obtain ⟨h1, h2, -⟩ := keepEntry_unpack (keepEntry_of_mem_filter h)
      exact ⟨h1, pyFalsy_false_not_empty h2⟩

/-- C4 witness: the diagnostic record of a plain word satisfies the
invariant. -/
theorem smart_parse_data_invariant_witness :
    (("Medical Analysis", Value.list [.str "hello"]) ∈ smart_parse_data "hello") ∧
    (keyBad "Medical Analysis" = false ∧
      Value.list [.str "hello"] ≠ .str "" ∧ Value.list [.str "hello"] ≠ .list []) := by
  have hm : ("Medical Analysis", Value.list [.str "hello"]) ∈ smart_parse_data "hello" := by
    rw [show smart_parse_data "hello" =
      [("Medical Analysis", Value.list [.str "hello"])] from rfl]
    exact List.mem_singleton.mpr rfl
  exact ⟨hm, smart_parse_data_invariant "hello" _ _ hm⟩

/-! ## C7 -/

/-- C7 counterexample: on the claim's own example — an unquoted bracketed
list with no valid JSON — normalize does not recover `vitals` by splitting
the bracket on commas; the record is the diagnostic fallback, with no
`vitals` field at all. -/
theorem no_comma_split_fallback :
    smart_parse_data "vitals: [BP 120, HR 72]" =
      [("Medical Analysis", .list [.str "vitals: [BP 120, HR 72]"])] ∧
    ¬ ∃ v, ("vitals", v) ∈ smart_parse_data "vitals: [BP 120, HR 72]" := by
  have he : smart_parse_data "vitals: [BP 120, HR 72]" =
      [("Medical Analysis", Value.list [.str "vitals: [BP 120, HR 72]"])] := rfl
  refine ⟨he, ?_⟩
  rintro ⟨v, hv⟩
  rw [he] at hv
  simp only [List.mem_singleton, Prod.mk.injEq] at hv
  exact absurd hv.1 (by decide)

/-- C7 (amended): the regex fallback has no comma-split: the list-field
scan requires quoted keys and quoted items, so a cleaned text without any
quote character (and with no opening brace, so the strict JSON stage cannot
apply) — such as the claim's `vitals: [BP 120, HR 72]` — yields exactly the
diagnostic fallback record wrapping the cleaned text. -/
theorem unquoted_list_yields_fallback (t : String)
    (hq : ∀ c ∈ cleanText t.toList, isQuote c = false)
    (hb : ∀ c ∈ cleanText t.toList, c ≠ lbrace) :
    smart_parse_data t =
      [("Medical Analysis", .list [.str (String.mk (cleanText t.toList))])] := by
  have h1 : strictStage (cleanText t.toList) = none := by
    simp only [strictStage, greedyBraceSpan_none hb]
  have hlf : findLF (cleanText t.toList) = [] := findLFAux_no_quotes _ _ hq
  have hss : summarySearch (cleanText t.toList) = none := summarySearch_no_quotes _ hq
  have h2 : regexStage (cleanText t.toList) = [] := by
    simp only [regexStage, findLF] at hlf ⊢
    simp only [hlf, hss, List.foldl]
  refine fallback_of_empty_filter t h1 ?_
  rw [h2]
  rfl

/-- C7 witness: the claim's example input. -/
theorem unquoted_list_yields_fallback_witness :
    (∀ c ∈ cleanText "vitals: [BP 120, HR 72]".toList, isQuote c = false) ∧
    (∀ c ∈ cleanText "vitals: [BP 120, HR 72]".toList, c ≠ lbrace) ∧
    smart_parse_data "vitals: [BP 120, HR 72]" =
      [("Medical Analysis",
        .list [.str (String.mk (cleanText "vitals: [BP 120, HR 72]".toList))])] :=
  ⟨by decide, by decide, unquoted_list_yields_fallback _ (by decide) (by decide)⟩

/-! ## C8 -/

/-- C8 counterexample: the text contains the well-shaped substring
`"v": ["a","b"]`, has no valid JSON, yet normalize recovers no field `v`:
the leftmost match claims key `k` and its lazy bracket group swallows the
shaped substring, yielding `k ↦ [v, a, b]`. -/
theorem nested_bracket_defeats_shape :
    isSubstrOf "\"v\": [\"a\",\"b\"]".toList "\"k\": [\"v\": [\"a\",\"b\"]".toList = true ∧
    smart_parse_data "\"k\": [\"v\": [\"a\",\"b\"]" =
      [("k", .list [.str "v", .str "a", .str "b"])] ∧
    (smart_parse_data "\"k\": [\"v\": [\"a\",\"b\"]").lookup "v" = none :=
  ⟨rfl, rfl, rfl⟩

/-- C8 (amended): for text of the shape
`prefix  q1 key q2 ws : ws [ quoted items ] suffix` — the prefix, key and
suffix free of quotes, braces and backticks, the items quote-delimited with
quote-, newline- and bracket-free contents, separators quote- and
bracket-free, at least one item, the key passing the unwanted-key filter
with marker-free items and distinct from the canonical summary key — the
record maps the key to exactly the quoted items. -/
theorem quoted_list_field_recovered
    (p key w1 w2 s : List Char) (q1 q2 : Char)
    (items : List (Char × List Char)) (seps : List (List Char))
    (hq1 : isQuote q1 = true) (hq2 : isQuote q2 = true)
    (hp : ∀ c ∈ p, isQuote c = false ∧ c ≠ lbrace ∧ c ≠ btick)
    (hkey : ∀ c ∈ key, isQuote c = false ∧ c ≠ lbrace ∧ c ≠ btick)
    (hw1 : ∀ c ∈ w1, pyWs c = true) (hw2 : ∀ c ∈ w2, pyWs c = true)
    (hitems : ∀ it ∈ items, isQuote it.1 = true ∧
      ∀ c ∈ it.2, isQuote c = false ∧ c ≠ '\n' ∧ c ≠ ']' ∧ c ≠ lbrace ∧ c ≠ btick)
    (hseps : ∀ sep ∈ seps, ∀ c ∈ sep,
      isQuote c = false ∧ c ≠ ']' ∧ c ≠ lbrace ∧ c ≠ btick)
    (hs : ∀ c ∈ s, isQuote c = false ∧ c ≠ lbrace ∧ c ≠ btick)
    (hne : items ≠ [])
    (hkb : keyBad (String.mk key) = false)
    (hvb : valueBad (Value.list (items.map fun it => Value.str (String.mk it.2))) = false)
    (hkps : String.mk key ≠ "Patient Summary") :
    (smart_parse_data (String.mk (p ++ q1 :: key ++ q2 :: w1 ++ ':' :: w2 ++
        '[' :: quotedJoin items seps ++ ']' :: s))).lookup (String.mk key) =
      some (Value.list (items.map fun it => Value.str (String.mk it.2))) := by
  rw [show (p ++ q1 :: key ++ q2 :: w1 ++ ':' :: w2 ++
      '[' :: quotedJoin items seps ++ ']' :: s) =
    p ++ (q1 :: (key ++ (q2 :: (w1 ++ (':' :: (w2 ++
      ('[' :: (quotedJoin items seps ++ (']' :: s))))))))) by simp]
  set inner := quotedJoin items seps with hinner_def
  set T : List Char := p ++ (q1 :: (key ++ (q2 :: (w1 ++ (':' :: (w2 ++
    ('[' :: (inner ++ (']' :: s))))))))) with hT_def
  set v₀ : Value := Value.list (items.map fun it => Value.str (String.mk it.2))
    with hv0_def
  -- every character of the whole text avoids backticks and opening braces
  have hPinner : ∀ c ∈ inner, c ≠ btick ∧ c ≠ lbrace := by
    refine quotedJoin_all ?_ ?_
    · intro it hit
      obtain ⟨hq, hcont⟩ := hitems it hit
      obtain ⟨-, hlb, hbt, -, -⟩ := isQuote_ne it.1 hq
      exact ⟨⟨hbt, hlb⟩, fun c hc => ⟨(hcont c hc).2.2.2.2, (hcont c hc).2.2.2.1⟩⟩
    · intro sep hsep c hc
      exact ⟨(hseps sep hsep c hc).2.2.2, (hseps sep hsep c hc).2.2.1⟩
  have hPT : ∀ c ∈ T, c ≠ btick ∧ c ≠ lbrace := by
    rw [hT_def]
    obtain ⟨-, hlb1, hbt1, -, -⟩ := isQuote_ne q1 hq1
    obtain ⟨-, hlb2, hbt2, -, -⟩ := isQuote_ne q2 hq2
    refine all_append (fun c hc => ⟨(hp c hc).2.2, (hp c hc).2.1⟩) ?_
    refine all_cons ⟨hbt1, hlb1⟩ ?_
    refine all_append (fun c hc => ⟨(hkey c hc).2.2, (hkey c hc).2.1⟩) ?_
    refine all_cons ⟨hbt2, hlb2⟩ ?_
    refine all_append (fun c hc => ⟨(pyWs_ne c (hw1 c hc)).2.2.1, (pyWs_ne c (hw1 c hc)).2.1⟩) ?_
    refine all_cons ⟨by decide, by decide⟩ ?_
    refine all_append (fun c hc => ⟨(pyWs_ne c (hw2 c hc)).2.2.1, (pyWs_ne c (hw2 c hc)).2.1⟩) ?_
    refine all_cons ⟨by decide, by decide⟩ ?_
    refine all_append hPinner ?_
    refine all_cons ⟨by decide, by decide⟩ ?_
    exact fun c hc => ⟨(hs c hc).2.2, (hs c hc).2.1⟩
  -- the cleaned text: fences are a no-op, stripping trims only the ends
  have hcl : cleanText T = pyStrip T :=
    cleanText_no_btick fun c hc => (hPT c hc).1
  have hsubT : ∀ c ∈ cleanText T, c ∈ T := by
    rw [hcl]
    intro c hc
    exact mem_of_mem_dropWhile (mem_of_mem_dropEndWhile hc)
  set p2 : List Char := p.dropWhile pyWs with hp2_def
  set s2 : List Char := dropEndWhile pyWs s with hs2_def
  have hp2 : ∀ c ∈ p2, isQuote c = false :=
    fun c hc => (hp c (mem_of_mem_dropWhile hc)).1
  have hs2 : ∀ c ∈ s2, isQuote c = false :=
    fun c hc => (hs c (mem_of_mem_dropEndWhile hc)).1
  have c_eq : cleanText T = p2 ++ (q1 :: (key ++ (q2 :: (w1 ++ (':' :: (w2 ++
      ('[' :: (inner ++ (']' :: s2))))))))) := by
    rw [hcl]
    unfold pyStrip
    rw [hT_def]
    rw [dropWhile_append_neg p _ (isQuote_ne q1 hq1).1]
    rw [show p.dropWhile pyWs ++ (q1 :: (key ++ (q2 :: (w1 ++ (':' :: (w2 ++
        ('[' :: (inner ++ (']' :: s))))))))) =
      (p.dropWhile pyWs ++ (q1 :: (key ++ (q2 :: (w1 ++ (':' :: (w2 ++
        ('[' :: inner)))))))) ++ (']' :: s) by simp]
    rw [dropEndWhile_append_neg _ s (by decide)]
    rw [hp2_def, hs2_def]
    simp
  -- the strict stage cannot fire: the cleaned text has no opening brace
  have h1 : strictStage (cleanText T) = none := by
    simp only [strictStage,
      greedyBraceSpan_none fun c hc => (hPT c (hsubT c hc)).2]
  -- the list-field scan finds exactly the one shaped match
  have hkeyq : ∀ c ∈ key, isQuote c = false := fun c hc => (hkey c hc).1
  have hinner_rb : ∀ c ∈ inner, c ≠ ']' := by
    refine quotedJoin_all ?_ ?_
    · intro it hit
      exact ⟨(isQuote_ne it.1 (hitems it hit).1).2.2.2.1,
        fun c hc => ((hitems it hit).2 c hc).2.2.1⟩
    · exact fun sep hsep c hc => (hseps sep hsep c hc).2.1
  have hfind : findLF (cleanText T) = [(key, '[' :: inner ++ [']'])] := by
    rw [c_eq]
    unfold findLF
    rw [show (p2 ++ (q1 :: (key ++ (q2 :: (w1 ++ (':' :: (w2 ++
        ('[' :: (inner ++ (']' :: s2)))))))))).length =
      p2.length + ((key ++ (q2 :: (w1 ++ (':' :: (w2 ++
        ('[' :: (inner ++ (']' :: s2)))))))).length + 1) by simp]
    rw [findLFAux_skip p2 _ _ hp2]
    simp only [findLFAux, hq1, if_true,
      tryCloseKey_shaped [] key q2 w1 w2 inner s2 hkeyq hq2 hw1 hw2 hinner_rb]
    rw [findLFAux_no_quotes _ s2 hs2]
    simp
  -- the quoted-item scan recovers the item contents
  have hscan : scanItems ('[' :: inner ++ [']']) = items.map Prod.snd := by
    unfold scanItems
    rw [show ('[' :: inner ++ [']']).length = ['['].length + (inner ++ [']']).length
      by simp only [List.length_append, List.length_cons, List.length_nil]; omega]
    rw [show ('[' :: inner ++ [']'] : List Char) = ['['] ++ (inner ++ [']'])
      by simp]
    rw [scanItemsAux_skip ['['] _ _ (by decide)]
    rw [hinner_def]
    exact scanItemsAux_join items seps [']'] _
      (fun it hit => ⟨(hitems it hit).1,
        fun c hc => ⟨((hitems it hit).2 c hc).1, ((hitems it hit).2 c hc).2.1⟩⟩)
      (fun sep hsep c hc => (hseps sep hsep c hc).1)
      (by decide) (le_refl _)
  -- the regex record: the key entry, possibly followed by a summary entry
  have hmapne : (items.map Prod.snd).isEmpty = false := by
    cases items with
    | nil => exact absurd rfl hne
    | cons a l => simp
  have hv0map : Value.list ((items.map Prod.snd).map fun i => Value.str (String.mk i))
      = v₀ := by
    rw [hv0_def, List.map_map]
    rfl
  have hds : dictSet [] (String.mk key)
      (Value.list ((items.map Prod.snd).map fun i => Value.str (String.mk i))) =
      [(String.mk key, v₀)] := by
    rw [hv0map]
    simp [dictSet]
  obtain ⟨restPS, hreg⟩ : ∃ restPS,
      regexStage (cleanText T) = (String.mk key, v₀) :: restPS := by
    cases hsum : summarySearch (cleanText T) with
    | none =>
      refine ⟨[], ?_⟩
      simp only [regexStage, hfind, List.foldl_cons, List.foldl_nil, hscan,
        hmapne, Bool.false_eq_true, if_false, hsum, hds]
    | some v =>
      refine ⟨[("Patient Summary", Value.str (String.mk v))], ?_⟩
      have hds2 : dictSet [(String.mk key, v₀)] "Patient Summary"
          (Value.str (String.mk v)) =
          [(String.mk key, v₀), ("Patient Summary", Value.str (String.mk v))] := by
        unfold dictSet
        rw [if_neg]
        · rfl
        · simp [hkps]
      simp only [regexStage, hfind, List.foldl_cons, List.foldl_nil, hscan,
        hmapne, Bool.false_eq_true, if_false, hsum, hds, hds2]
  -- the key entry passes the filter, so the fallback branch is not taken
  have hkeep : keepEntry (String.mk key, v₀) = true := by
    have hpf : pyFalsy v₀ = false := by
      rw [hv0_def]
      cases items with
      | nil => exact absurd rfl hne
      | cons a l => simp [pyFalsy]
    simp [keepEntry, hkb, hpf, hv0_def ▸ hvb]
  have hfilter : filter_unwanted_keys (regexStage (cleanText T)) =
      (String.mk key, v₀) :: List.filter keepEntry restPS := by
    rw [hreg]
    unfold filter_unwanted_keys
    rw [List.filter_cons_of_pos hkeep]
  rw [smart_parse_data_cases]
  rw [show (String.mk T).toList = T from rfl]
  rw [h1]
  simp only [fallbackStage, hfilter, List.isEmpty_cons, Bool.false_eq_true,
    if_false]
  simp [List.lookup]

/-- C8 witness: a prose-led double-quoted `vitals` list with two items. -/
theorem quoted_list_field_recovered_witness :
    keyBad (String.mk "vitals".toList) = false ∧
    [(dquote, "BP 120".toList), (dquote, "HR 72".toList)] ≠ [] ∧
    (smart_parse_data (String.mk ("Recovered data follows ".toList ++ dquote ::
      "vitals".toList ++ dquote :: [] ++ ':' :: [' '] ++ '[' ::
      quotedJoin [(dquote, "BP 120".toList), (dquote, "HR 72".toList)] [", ".toList] ++
      ']' :: " end".toList))).lookup (String.mk "vitals".toList) =
      some (Value.list ([(dquote, "BP 120".toList), (dquote, "HR 72".toList)].map
        fun it => Value.str (String.mk it.2))) :=
  ⟨by decide, by decide,
    quoted_list_field_recovered "Recovered data follows ".toList "vitals".toList []
      [' '] " end".toList dquote dquote
      [(dquote, "BP 120".toList), (dquote, "HR 72".toList)] [", ".toList]
      (by decide) (by decide) (by decide) (by decide) (by decide) (by decide)
      (by decide) (by decide) (by decide) (by decide) (by decide) (by decide)
      (by decide)⟩

end App
